import Mathlib

/-!
Verification of the entity/context core of the `gpui3` crate
(`src/crates/gpui3/src/app.rs`) and its interaction-dispatch layer
(`src/crates/gpui3/src/interactive.rs`).

The Rust state is embedded shallowly: the `AppContext` becomes the `Ctx`
structure below (slotmaps and hash maps become association lists, the
`VecDeque` of effects becomes a list whose head is the queue front), pure
functions become Lean functions, and panics (`unwrap` on `None`, failed
downcasts) become `none` results.  Closures stored in the observer table are
deep-embedded as small programs (`Act`), because Rust keeps them as boxed
`Fn(&mut AppContext) -> bool` values; an interpreter below runs them against
the context exactly as `flush_effects` / `apply_notify_effect` do.  The
interpreter takes a fuel argument because the flush loop of the source can
run forever (a notify handler may enqueue further effects without bound, and
the redraw sweep re-enters `update`).

A ghost `trace` field records enqueue/apply/invoke events; it influences
nothing and exists only to state ordering properties (FIFO drain, observer
invocation order).
-/

namespace Gpui

abbrev EntityId := Nat
abbrev WindowId := Nat

/-- `Effect` from app.rs: a single variant, `Notify(EntityId)`. -/
inductive Effect where
  | Notify (id : EntityId)
deriving DecidableEq, Repr

/-- The entity id carried by an effect. -/
def Effect.eid : Effect → EntityId
  | .Notify i => i

/-- Ghost trace events: an effect was enqueued, an effect was applied
(popped from the queue front by `flush_effects`), an observer callback with
a given label was invoked. -/
inductive Ev where
  | enq (id : EntityId)
  | app (id : EntityId)
  | inv (label : Nat)
deriving DecidableEq, Repr

/-- Deep embedding of what code running against the `AppContext` may do:
push a `Notify` effect (as `ModelContext::notify` does), register an
observer for an entity, or perform a nested `AppContext::update`. -/
inductive Act where
  | enqueue (id : EntityId)
  | observe (id : EntityId) (label : Nat) (body : List Act) (ret : Bool)
  | nested (body : List Act)

/-- An observer callback from the `observers` table
(`Fn(&mut AppContext) -> bool`): a label (ghost identity for trace
statements), the actions it performs, and its boolean return value. -/
structure Handler where
  label : Nat
  acts : List Act
  ret : Bool

/-- A type-erased entity value (`Box<dyn Any + Send>`): a type tag standing
for the Rust `TypeId` plus a payload. -/
structure EVal where
  tag : Nat
  val : Nat
deriving DecidableEq, Repr

/-- `Window` from the data model: the `dirty` flag from app.rs plus a
`drawOk` flag. `drawOk` is Modelled from the spec: the draw routine
(`WindowContext::draw`, window.rs is not part of src/) can fail, and we
record per window whether its draw succeeds. The root view is elided. -/
structure Window where
  dirty : Bool
  drawOk : Bool
deriving DecidableEq, Repr

/-- Association-list lookup (first match), modelling `SlotMap::get` /
`HashMap::get`. -/
def alookup {α : Type} : List (Nat × α) → Nat → Option α
  | [], _ => none
  | (k, v) :: t, k' => if k = k' then some v else alookup t k'

/-- Replace the value at a key in place (the key is assumed present when
this models `get_mut` writes; an absent key is appended, which never happens
on the paths we model). -/
def aset {α : Type} : List (Nat × α) → Nat → α → List (Nat × α)
  | [], k, v => [(k, v)]
  | (k', v') :: t, k, v => if k' = k then (k, v) :: t else (k', v') :: aset t k v

/-- Remove a key, modelling `HashMap::remove` / `SlotMap::remove`. -/
def aremove {α : Type} : List (Nat × α) → Nat → List (Nat × α)
  | [], _ => []
  | (k', v') :: t, k => if k' = k then aremove t k else (k', v') :: aremove t k

/-- `HashMap::insert`: replace the binding if present, else add it. -/
def ainsert {α : Type} (m : List (Nat × α)) (k : Nat) (v : α) : List (Nat × α) :=
  (k, v) :: aremove m k

/-- The `AppContext` of app.rs, restricted to the fields the claims are
about.  `trace` and `drawLog` are ghost instrumentation (the draw log
records which windows the modelled draw routine was invoked on). -/
structure Ctx where
  pendingUpdates : Nat
  entities : List (EntityId × Option EVal)
  windows : List (WindowId × Option Window)
  pendingEffects : List Effect
  observers : List (EntityId × List Handler)
  trace : List Ev
  drawLog : List WindowId

/-- A typed strong handle: entity id plus the phantom type, represented by
its tag. -/
structure Handle where
  id : EntityId
  tag : Nat
deriving DecidableEq, Repr

/-- A weak handle has the same shape as a strong one. -/
structure WeakHandle where
  id : EntityId
  tag : Nat
deriving DecidableEq, Repr

/-- `Handle::downgrade`. -/
def Handle.downgrade (h : Handle) : WeakHandle := ⟨h.id, h.tag⟩

/-- `WeakHandle::upgrade` as written in app.rs: the liveness check is a
stub (`todo`), so upgrading always succeeds regardless of the store. -/
def WeakHandle.upgrade (w : WeakHandle) : Option Handle :=
  some ⟨w.id, w.tag⟩

/-- The scoped `ModelContext<'a, T>`: a mutable borrow of the app context
plus the owning entity id. -/
structure ModelContext where
  app : Ctx
  entity_id : EntityId

/-- `AppContext::update_entity` (app.rs, `impl Context for AppContext`):
take the value out of its slot, fail fast (panic, modelled as `none`) if
the key is absent, the slot is already vacant, or the downcast tag does not
match; run the closure on the value and a scoped context carrying the
owning id; put the returned value back (panicking if the key has vanished);
return the closure's result.  The closure may itself panic (`none`).
Nothing here touches `pending_updates` or `pending_effects`. -/
def updateEntity {R : Type} (c : Ctx) (h : Handle)
    (f : Nat → ModelContext → Option (Nat × ModelContext × R)) :
    Option (Ctx × R) :=
  match alookup c.entities h.id with
  | none => none
  | some none => none
  | some (some ev) =>
    if ev.tag = h.tag then
      let c1 : Ctx := { c with entities := aset c.entities h.id none }
      match f ev.val ⟨c1, h.id⟩ with
      | none => none
      | some (v', mc', r) =>
        match alookup mc'.app.entities h.id with
        | none => none
        | some _ =>
          some ({ mc'.app with
                    entities := aset mc'.app.entities h.id (some ⟨h.tag, v'⟩) }, r)
    else none

/-- `WeakHandle::update` (app.rs): upgrade, map a missing upgrade to the
"entity release" error, otherwise run `update_entity` (whose panics
propagate as `none`). -/
def WeakHandle.updateWeak {R : Type} (w : WeakHandle) (c : Ctx)
    (f : Nat → ModelContext → Option (Nat × ModelContext × R)) :
    Option (Except String R × Ctx) :=
  match w.upgrade with
  | none => some (Except.error "entity release", c)
  | some h =>
    match updateEntity c h f with
    | none => none
    | some (c', r) => some (Except.ok r, c')

/-- A closure passed to `update_window`: receives the taken-out window and
the context, may panic (`none`). -/
def WindowClosure (R : Type) := Window → Ctx → Option (Window × Ctx × R)

/-- The body of `AppContext::update_window` (the closure it passes to
`self.update`): look the window up (`Err("window not found")` if the id is
absent), take it out of its slot (panicking if the slot is already vacant),
run the caller's closure, mark the window dirty, put it back (a second
"window not found" error if the key vanished meanwhile), and return the
closure's result. -/
def updateWindowBody {R : Type} (id : WindowId) (f : WindowClosure R) (c : Ctx) :
    Option (Except String R × Ctx) :=
  match alookup c.windows id with
  | none => some (Except.error "window not found", c)
  | some none => none
  | some (some w) =>
    let c1 : Ctx := { c with windows := aset c.windows id none }
    match f w c1 with
    | none => none
    | some (w', c2, r) =>
      let w3 : Window := { w' with dirty := true }
      match alookup c2.windows id with
      | none => some (Except.error "window not found", c2)
      | some _ =>
        some (Except.ok r, { c2 with windows := aset c2.windows id (some w3) })

/-- Modelled from the spec: `ModelContext::notify` (model_context.rs, not
part of src/) pushes `Effect::Notify(entity_id)` to the back of the
`pending_effects` queue (`VecDeque::push_back`; effects execute strictly
FIFO, popped from the front).  Ghost: the enqueue is recorded in the
trace. -/
def enqueueNotify (c : Ctx) (id : EntityId) : Ctx :=
  { c with pendingEffects := c.pendingEffects ++ [Effect.Notify id],
           trace := c.trace ++ [Ev.enq id] }

/-- Modelled from the spec: observer registration
(`observe(entity_id, callback)`, §6 — not part of src/) appends the
callback at the end of the entity's ordered observer list in the
`observers` table. -/
def registerObserver (c : Ctx) (id : EntityId) (h : Handler) : Ctx :=
  { c with observers :=
      ainsert c.observers id ((alookup c.observers id).getD [] ++ [h]) }

/-- Modelled from the spec: `WindowContext::draw` (window.rs, not part of
src/) — the redraw sweep "calls the draw routine and clears dirty"; the
draw result is an error when the window's draw fails.  Ghost: the window id
is appended to the draw log. -/
def drawW (id : WindowId) : WindowClosure (Except String Unit) :=
  fun w c =>
    some ({ w with dirty := false },
          { c with drawLog := c.drawLog ++ [id] },
          if w.drawOk then Except.ok () else Except.error "draw failed")

/-- The dirty-window collection of `flush_effects`: iterate all window
slots, `unwrap` each (panic — `none` — on a vacant slot), and keep the ids
of dirty windows in iteration order. -/
def dirtyIds : List (WindowId × Option Window) → Option (List WindowId)
  | [] => some []
  | (_, none) :: _ => none
  | (id, some w) :: t =>
    match dirtyIds t with
    | none => none
    | some r => some (if w.dirty then id :: r else r)

mutual

/-- Run one action against the context. `nested` is a reentrant
`AppContext::update`. -/
def runAct (fuel : Nat) (a : Act) (c : Ctx) : Option Ctx :=
  match fuel with
  | 0 => none
  | fuel + 1 =>
    match a with
    | .enqueue id => some (enqueueNotify c id)
    | .observe id label body ret => some (registerObserver c id ⟨label, body, ret⟩)
    | .nested body => appUpdate fuel body c

/-- Run a sequence of actions. -/
def runActs (fuel : Nat) (acts : List Act) (c : Ctx) : Option Ctx :=
  match fuel with
  | 0 => none
  | fuel + 1 =>
    match acts with
    | [] => some c
    | a :: t =>
      match runAct fuel a c with
      | none => none
      | some c1 => runActs fuel t c1

/-- `AppContext::update` (app.rs): increment `pending_updates`, run the
closure, decrement, and when the counter returns to zero flush the
pending effects. -/
def appUpdate (fuel : Nat) (body : List Act) (c : Ctx) : Option Ctx :=
  match fuel with
  | 0 => none
  | fuel + 1 =>
    let c1 : Ctx := { c with pendingUpdates := c.pendingUpdates + 1 }
    match runActs fuel body c1 with
    | none => none
    | some c2 =>
      let c3 : Ctx := { c2 with pendingUpdates := c2.pendingUpdates - 1 }
      if c3.pendingUpdates = 0 then flushEffects fuel c3 else some c3

/-- `AppContext::flush_effects` (app.rs): pop effects from the queue front
until it is empty (re-checking emptiness each iteration), applying each
`Notify`; then collect the dirty windows and redraw each by
`update_window(id, draw)`.  Ghost: each popped effect is recorded as an
`app` trace event. -/
def flushEffects (fuel : Nat) (c : Ctx) : Option Ctx :=
  match fuel with
  | 0 => none
  | fuel + 1 =>
    match c.pendingEffects with
    | Effect.Notify id :: rest =>
      match applyNotifyEffect fuel id
          { c with pendingEffects := rest, trace := c.trace ++ [Ev.app id] } with
      | none => none
      | some c1 => flushEffects fuel c1
    | [] =>
      match dirtyIds c.windows with
      | none => none
      | some ids => redrawWindows fuel ids c

/-- `AppContext::apply_notify_effect` (app.rs): remove the id's observer
list (doing nothing if absent), `retain` the handlers — running each and
keeping those that return true —, pick up any handlers registered for the
same id while notifying, extend the kept list with them, and reinsert. -/
def applyNotifyEffect (fuel : Nat) (id : EntityId) (c : Ctx) : Option Ctx :=
  match fuel with
  | 0 => none
  | fuel + 1 =>
    match alookup c.observers id with
    | none => some c
    | some hs =>
      let c0 : Ctx := { c with observers := aremove c.observers id }
      match runRetain fuel hs c0 with
      | none => none
      | some (kept, c1) =>
        let newHs := (alookup c1.observers id).getD []
        let c2 : Ctx := { c1 with observers := aremove c1.observers id }
        some { c2 with observers := ainsert c2.observers id (kept ++ newHs) }

/-- `SmallVec::retain` over the taken-out handler list: invoke each handler
in order against the evolving context, and keep exactly those whose return
value is true.  Ghost: each invocation is recorded as an `inv` trace
event. -/
def runRetain (fuel : Nat) (hs : List Handler) (c : Ctx) :
    Option (List Handler × Ctx) :=
  match fuel with
  | 0 => none
  | fuel + 1 =>
    match hs with
    | [] => some ([], c)
    | h :: t =>
      match runActs fuel h.acts { c with trace := c.trace ++ [Ev.inv h.label] } with
      | none => none
      | some c1 =>
        match runRetain fuel t c1 with
        | none => none
        | some (kept, c2) => some ((if h.ret then h :: kept else kept), c2)

/-- The redraw sweep of `flush_effects`: for each collected dirty window id
run `update_window(id, draw)`, `unwrap` the outer result and drop (log)
the inner draw result. -/
def redrawWindows (fuel : Nat) (ids : List WindowId) (c : Ctx) : Option Ctx :=
  match fuel with
  | 0 => none
  | fuel + 1 =>
    match ids with
    | [] => some c
    | id :: t =>
      match updateWindowDraw fuel id c with
      | none => none
      | some c1 => redrawWindows fuel t c1

/-- `AppContext::update_window` specialised to the draw closure, as invoked
by the redraw sweep: the `self.update` wrapper (increment, body, decrement,
flush on zero) around `updateWindowBody`, with the caller's `.unwrap()`
(panic on the "window not found" error) and `.log_err()` (drop the inner
draw error) applied to the result. -/
def updateWindowDraw (fuel : Nat) (id : WindowId) (c : Ctx) : Option Ctx :=
  match fuel with
  | 0 => none
  | fuel + 1 =>
    let c1 : Ctx := { c with pendingUpdates := c.pendingUpdates + 1 }
    match updateWindowBody id (drawW id) c1 with
    | none => none
    | some (r, c2) =>
      let c3 : Ctx := { c2 with pendingUpdates := c2.pendingUpdates - 1 }
      match (if c3.pendingUpdates = 0 then flushEffects fuel c3 else some c3) with
      | none => none
      | some c4 =>
        match r with
        | Except.error _ => none
        | Except.ok _ => some c4

end

/-- The possible outcomes of a generic `update_window` call: a returned
`Result`, a panic, or no result because the fueled flush gave out (the
flush loop of this snapshot can recurse forever). -/
inductive WRes (R : Type) where
  | ok (r : Except String R) (c : Ctx)
  | panicked
  | nofuel

/-- `AppContext::update_window` (app.rs) for an arbitrary closure: the
`self.update` wrapper around `updateWindowBody`. -/
def updateWindow {R : Type} (fuel : Nat) (id : WindowId) (f : WindowClosure R)
    (c : Ctx) : WRes R :=
  let c1 : Ctx := { c with pendingUpdates := c.pendingUpdates + 1 }
  match updateWindowBody id f c1 with
  | none => .panicked
  | some (r, c2) =>
    let c3 : Ctx := { c2 with pendingUpdates := c2.pendingUpdates - 1 }
    if c3.pendingUpdates = 0 then
      match flushEffects fuel c3 with
      | none => .nofuel
      | some c4 => .ok r c4
    else .ok r c3

/-! ## Interaction dispatch (src/crates/gpui3/src/interactive.rs) -/

/-- Modelled from the spec: pixel coordinates (`Point<Pixels>`; geometry.rs
is not part of src/).  Coordinates are integers here. -/
structure Point where
  x : Int
  y : Int
deriving DecidableEq, Repr

/-- Modelled from the spec: a size in pixels. -/
structure Size where
  width : Int
  height : Int
deriving DecidableEq, Repr

/-- Modelled from the spec: an element's rectangular bounds. -/
structure Bounds where
  origin : Point
  size : Size
deriving DecidableEq, Repr

/-- Modelled from the spec: `Bounds::contains_point` (geometry.rs, not part
of src/); §8.5: a point exactly on an edge counts as inside. -/
def Bounds.containsPoint (b : Bounds) (p : Point) : Bool :=
  b.origin.x ≤ p.x && p.x ≤ b.origin.x + b.size.width &&
  b.origin.y ≤ p.y && p.y ≤ b.origin.y + b.size.height

/-- `NavigationDirection` from interactive.rs. -/
inductive NavigationDirection where
  | Back
  | Forward
deriving DecidableEq, Repr

/-- `MouseButton` from interactive.rs. -/
inductive MouseButton where
  | Left
  | Right
  | Middle
  | Navigate (d : NavigationDirection)
deriving DecidableEq, Repr

/-- `DispatchPhase` (declared outside interactive.rs): capture runs
root-to-target, bubble target-to-root. -/
inductive DispatchPhase where
  | Bubble
  | Capture
deriving DecidableEq, Repr

/-- `MouseDownEvent` from interactive.rs (modifiers elided — their type
lives outside src/ and no claim touches them). -/
structure MouseDownEvent where
  button : MouseButton
  position : Point
  clickCount : Nat
deriving DecidableEq, Repr

/-- `MouseUpEvent` from interactive.rs. -/
structure MouseUpEvent where
  button : MouseButton
  position : Point
  clickCount : Nat
deriving DecidableEq, Repr

/-- `MouseClickEvent` from interactive.rs: the synthesised pair. -/
structure MouseClickEvent where
  down : MouseDownEvent
  up : MouseUpEvent
deriving DecidableEq, Repr

/-- A registered mouse-down listener.  `on_mouse_down` wraps the user
handler in a Bubble-phase, button-matching, inside-bounds guard;
`on_mouse_down_out` in a Capture-phase, button-matching, outside-bounds
guard.  The user handler is represented by a ghost label. -/
inductive MouseDownListener where
  | inside (button : MouseButton) (label : Nat)
  | outside (button : MouseButton) (label : Nat)
deriving DecidableEq, Repr

/-- A registered mouse-up listener (`on_mouse_up` / `on_mouse_up_out`). -/
inductive MouseUpListener where
  | inside (button : MouseButton) (label : Nat)
  | outside (button : MouseButton) (label : Nat)
deriving DecidableEq, Repr

/-- Whether the wrapper installed by `on_mouse_down` / `on_mouse_down_out`
invokes the user handler, transcribing the two `if` conditions of
interactive.rs lines 31-38 and 79-86. -/
def MouseDownListener.fires (l : MouseDownListener) (e : MouseDownEvent)
    (bounds : Bounds) (phase : DispatchPhase) : Bool :=
  match l with
  | .inside b _ =>
    decide (phase = DispatchPhase.Bubble) && decide (e.button = b) &&
      bounds.containsPoint e.position
  | .outside b _ =>
    decide (phase = DispatchPhase.Capture) && decide (e.button = b) &&
      !(bounds.containsPoint e.position)

/-- Whether the wrapper installed by `on_mouse_up` / `on_mouse_up_out`
invokes the user handler (interactive.rs lines 55-62 and 103-110). -/
def MouseUpListener.fires (l : MouseUpListener) (e : MouseUpEvent)
    (bounds : Bounds) (phase : DispatchPhase) : Bool :=
  match l with
  | .inside b _ =>
    decide (phase = DispatchPhase.Bubble) && decide (e.button = b) &&
      bounds.containsPoint e.position
  | .outside b _ =>
    decide (phase = DispatchPhase.Capture) && decide (e.button = b) &&
      !(bounds.containsPoint e.position)

/-- `Interactivity<V>` from interactive.rs: the per-paint listener lists.
Click, move, scroll and key listeners are represented by ghost labels (for
key listeners, paired with the registered `TypeId`). -/
structure Interactivity where
  mouse_down : List MouseDownListener
  mouse_up : List MouseUpListener
  mouse_click : List Nat
  mouse_move : List Nat
  scroll_wheel : List Nat
  key : List (Nat × Nat)
deriving DecidableEq, Repr

/-- `Interactive::on_mouse_down`: push the Bubble/inside wrapper. -/
def Interactivity.onMouseDown (i : Interactivity) (button : MouseButton)
    (label : Nat) : Interactivity :=
  { i with mouse_down := i.mouse_down ++ [.inside button label] }

/-- `Interactive::on_mouse_down_out`: push the Capture/outside wrapper
(onto the same `mouse_down` list). -/
def Interactivity.onMouseDownOut (i : Interactivity) (button : MouseButton)
    (label : Nat) : Interactivity :=
  { i with mouse_down := i.mouse_down ++ [.outside button label] }

/-- `Interactive::on_mouse_up`. -/
def Interactivity.onMouseUp (i : Interactivity) (button : MouseButton)
    (label : Nat) : Interactivity :=
  { i with mouse_up := i.mouse_up ++ [.inside button label] }

/-- `Interactive::on_mouse_up_out`. -/
def Interactivity.onMouseUpOut (i : Interactivity) (button : MouseButton)
    (label : Nat) : Interactivity :=
  { i with mouse_up := i.mouse_up ++ [.outside button label] }

/-- `Click::on_click`: push a click listener. -/
def Interactivity.onClick (i : Interactivity) (label : Nat) : Interactivity :=
  { i with mouse_click := i.mouse_click ++ [label] }

/-- What `Interactivity::paint` registers with the window for this paint
pass: the element bounds every installed closure captured, the click-
synthesis mouse-up listener (present when a pending down existed at paint,
carrying the captured down and the taken-out click listeners), the
pending-down capture listener (present when no pending down existed), and
the moved-out mouse listener lists. -/
structure Installed where
  bounds : Bounds
  clickUp : Option (MouseDownEvent × List Nat)
  downCapture : Bool
  mouse_down : List MouseDownListener
  mouse_up : List MouseUpListener
  mouse_move : List Nat
  scroll_wheel : List Nat
deriving DecidableEq, Repr

/-- `Interactivity::paint` (interactive.rs lines 525-579): take the click
listeners out; if the pending-click register holds a down, install the
click-synthesis mouse-up listener over it, otherwise install the listener
that captures the next in-bounds Bubble-phase down; then move each of the
mouse-down/up/move/scroll lists out into per-paint registrations.  The key
list is untouched. -/
def Interactivity.paint (i : Interactivity) (bounds : Bounds)
    (pending : Option MouseDownEvent) : Interactivity × Installed :=
  let click_listeners := i.mouse_click
  let clickUp := pending.map (fun md => (md, click_listeners))
  let downCapture := pending.isNone
  ({ i with mouse_down := [], mouse_up := [], mouse_click := [],
            mouse_move := [], scroll_wheel := [] },
   { bounds := bounds, clickUp := clickUp, downCapture := downCapture,
     mouse_down := i.mouse_down, mouse_up := i.mouse_up,
     mouse_move := i.mouse_move, scroll_wheel := i.scroll_wheel })

/-- Modelled from the spec: delivering a `MouseUpEvent` at one dispatch
phase to the click-synthesis listener paint installed (the closure at
interactive.rs lines 535-547).  Returns the `(label, click event)` pairs
fired and the new content of the pending-click register: if the up lands
inside the bounds during the Bubble phase, every taken-out click listener
is fired once with the synthesised `(down, up)` pair; the register is
cleared unconditionally.  When paint installed no such listener the
register and listeners are untouched. -/
def Installed.dispatchUp (inst : Installed) (pending : Option MouseDownEvent)
    (e : MouseUpEvent) (phase : DispatchPhase) :
    List (Nat × MouseClickEvent) × Option MouseDownEvent :=
  match inst.clickUp with
  | none => ([], pending)
  | some (md, clicks) =>
    ((if phase = DispatchPhase.Bubble ∧ inst.bounds.containsPoint e.position then
        clicks.map (fun l => (l, ⟨md, e⟩))
      else []),
     none)

/-- Modelled from the spec: delivering a `MouseDownEvent` at one dispatch
phase to the pending-down capture listener paint installed (the closure at
interactive.rs lines 549-553): an in-bounds Bubble-phase down is stored in
the register, anything else leaves it alone. -/
def Installed.dispatchDown (inst : Installed) (pending : Option MouseDownEvent)
    (e : MouseDownEvent) (phase : DispatchPhase) : Option MouseDownEvent :=
  if inst.downCapture then
    if phase = DispatchPhase.Bubble ∧ inst.bounds.containsPoint e.position then
      some e
    else pending
  else pending

/-! ## Ghost-trace projections and the FIFO queue invariant -/

/-- The ids of enqueued effects, in trace order. -/
def enqs : List Ev → List EntityId
  | [] => []
  | Ev.enq i :: t => i :: enqs t
  | Ev.app _ :: t => enqs t
  | Ev.inv _ :: t => enqs t

/-- The ids of applied (drained) effects, in trace order. -/
def apps : List Ev → List EntityId
  | [] => []
  | Ev.app i :: t => i :: apps t
  | Ev.enq _ :: t => apps t
  | Ev.inv _ :: t => apps t

/-- The labels of invoked observer callbacks, in trace order. -/
def invs : List Ev → List Nat
  | [] => []
  | Ev.inv l :: t => l :: invs t
  | Ev.enq _ :: t => invs t
  | Ev.app _ :: t => invs t

@[simp] theorem enqs_append (xs ys : List Ev) :
    enqs (xs ++ ys) = enqs xs ++ enqs ys := by
  induction xs with
  | nil => rfl
  | cons h t ih => cases h <;> simp [enqs, ih]

@[simp] theorem apps_append (xs ys : List Ev) :
    apps (xs ++ ys) = apps xs ++ apps ys := by
  induction xs with
  | nil => rfl
  | cons h t ih => cases h <;> simp [apps, ih]

@[simp] theorem invs_append (xs ys : List Ev) :
    invs (xs ++ ys) = invs xs ++ invs ys := by
  induction xs with
  | nil => rfl
  | cons h t ih => cases h <;> simp [invs, ih]

/-- The queue invariant tying the ghost trace to the pending queue: what
was ever enqueued is what was already applied followed by what is still
queued.  It holds trivially of a context with an empty trace and queue,
and every operation of the interpreter preserves it. -/
def Inv (c : Ctx) : Prop :=
  enqs c.trace = apps c.trace ++ c.pendingEffects.map Effect.eid

/-- What every interpreter step guarantees: the reentrancy counter is
restored, the ghost trace only grows, and the queue invariant is
preserved. -/
def Pre (c c' : Ctx) : Prop :=
  c'.pendingUpdates = c.pendingUpdates
    ∧ (∃ ts, c'.trace = c.trace ++ ts)
    ∧ (Inv c → Inv c')

theorem Pre.same {c : Ctx} : Pre c c :=
  ⟨rfl, ⟨[], by simp⟩, id⟩

theorem Pre.trans {a b c : Ctx} (h1 : Pre a b) (h2 : Pre b c) : Pre a c := by
  obtain ⟨u1, ⟨t1, e1⟩, i1⟩ := h1
  obtain ⟨u2, ⟨t2, e2⟩, i2⟩ := h2
  exact ⟨u2.trans u1, ⟨t1 ++ t2, by rw [e2, e1, List.append_assoc]⟩, fun h => i2 (i1 h)⟩

/-- A step that leaves the counter, trace and queue untouched satisfies
`Pre`. -/
theorem Pre.of_fields {c c' : Ctx} (hu : c'.pendingUpdates = c.pendingUpdates)
    (ht : c'.trace = c.trace) (hq : c'.pendingEffects = c.pendingEffects) :
    Pre c c' := by
  refine ⟨hu, ⟨[], by simp [ht]⟩, fun h => ?_⟩
  unfold Inv at *
  rw [ht, hq]; exact h

theorem Pre.enqueue {c : Ctx} {id : EntityId} : Pre c (enqueueNotify c id) := by
  refine ⟨rfl, ⟨[Ev.enq id], rfl⟩, fun h => ?_⟩
  unfold Inv enqueueNotify at *
  simp only [enqs_append, apps_append, List.map_append]
  simp [enqs, apps, h, Effect.eid, List.append_assoc]

theorem Pre.pop {c : Ctx} {id : EntityId} {rest : List Effect}
    (hq : c.pendingEffects = Effect.Notify id :: rest) :
    Pre c { c with pendingEffects := rest, trace := c.trace ++ [Ev.app id] } := by
  refine ⟨rfl, ⟨[Ev.app id], rfl⟩, fun h => ?_⟩
  unfold Inv at *
  simp only [enqs_append, apps_append] at *
  rw [hq] at h
  simp [enqs, apps, h, Effect.eid, List.append_assoc]

theorem Pre.inv_ev {c : Ctx} {l : Nat} :
    Pre c { c with trace := c.trace ++ [Ev.inv l] } := by
  refine ⟨rfl, ⟨[Ev.inv l], rfl⟩, fun h => ?_⟩
  unfold Inv at *
  simp [enqs, apps, h]

/-- The window-draw body touches only the window store and the draw log. -/
theorem updateWindowBody_drawW_fields {id : WindowId} {c c2 : Ctx}
    {r : Except String (Except String Unit)}
    (h : updateWindowBody id (drawW id) c = some (r, c2)) :
    c2.pendingUpdates = c.pendingUpdates ∧ c2.trace = c.trace
      ∧ c2.pendingEffects = c.pendingEffects ∧ c2.observers = c.observers
      ∧ c2.entities = c.entities := by
  unfold updateWindowBody drawW at h
  cases hw : alookup c.windows id with
  | none => rw [hw] at h; simp at h; obtain ⟨_, h2⟩ := h; subst h2; exact ⟨rfl, rfl, rfl, rfl, rfl⟩
  | some s =>
    rw [hw] at h
    cases s with
    | none => simp at h
    | some w =>
      simp only at h
      cases hl : alookup (aset c.windows id none) id with
      | none => rw [hl] at h; simp at h; obtain ⟨_, h2⟩ := h; subst h2; exact ⟨rfl, rfl, rfl, rfl, rfl⟩
      | some s2 => rw [hl] at h; simp at h; obtain ⟨_, h2⟩ := h; subst h2; exact ⟨rfl, rfl, rfl, rfl, rfl⟩

/-- Composing the increment/decrement bracket of `update` around a step. -/
theorem Pre.of_inc_dec {c c2 c' : Ctx}
    (h2 : Pre { c with pendingUpdates := c.pendingUpdates + 1 } c2)
    (h3 : Pre { c2 with pendingUpdates := c2.pendingUpdates - 1 } c') :
    Pre c c' := by
  obtain ⟨u2, ⟨t2, e2⟩, i2⟩ := h2
  obtain ⟨u3, ⟨t3, e3⟩, i3⟩ := h3
  simp only at u2 u3 e2 e3
  refine ⟨?_, ⟨t2 ++ t3, ?_⟩, fun hi => i3 (i2 hi)⟩
  · rw [u3, u2]; omega
  · rw [e3, e2, List.append_assoc]

/-- Joint induction over the fuel: every interpreter function satisfies
`Pre` between its input and output contexts. -/
theorem stepProps : ∀ fuel : Nat,
    (∀ a c c', runAct fuel a c = some c' → Pre c c')
    ∧ (∀ acts c c', runActs fuel acts c = some c' → Pre c c')
    ∧ (∀ body c c', appUpdate fuel body c = some c' → Pre c c')
    ∧ (∀ c c', flushEffects fuel c = some c' → Pre c c')
    ∧ (∀ id c c', applyNotifyEffect fuel id c = some c' → Pre c c')
    ∧ (∀ hs c kept c', runRetain fuel hs c = some (kept, c') → Pre c c')
    ∧ (∀ ids c c', redrawWindows fuel ids c = some c' → Pre c c')
    ∧ (∀ id c c', updateWindowDraw fuel id c = some c' → Pre c c') := by
  intro fuel
  induction fuel with
  | zero =>
    exact ⟨fun _ _ _ h => Option.noConfusion h, fun _ _ _ h => Option.noConfusion h,
           fun _ _ _ h => Option.noConfusion h, fun _ _ h => Option.noConfusion h,
           fun _ _ _ h => Option.noConfusion h, fun _ _ _ _ h => Option.noConfusion h,
           fun _ _ _ h => Option.noConfusion h, fun _ _ _ h => Option.noConfusion h⟩
  | succ n ih =>
    obtain ⟨ihAct, ihActs, ihUpd, ihFlush, ihNotify, ihRetain, ihRedraw, ihUwd⟩ := ih
    have hAct : ∀ a c c', runAct (n + 1) a c = some c' → Pre c c' := by
      intro a c c' h
      cases a with
      | enqueue id =>
        simp only [runAct, Option.some.injEq] at h
        subst h; exact Pre.enqueue
      | observe id label body ret =>
        simp only [runAct, Option.some.injEq] at h
        subst h; exact Pre.of_fields rfl rfl rfl
      | nested body =>
        simp only [runAct] at h
        exact ihUpd body c c' h
    have hActs : ∀ acts c c', runActs (n + 1) acts c = some c' → Pre c c' := by
      intro acts c c' h
      cases acts with
      | nil =>
        simp only [runActs, Option.some.injEq] at h
        subst h; exact Pre.same
      | cons a t =>
        cases hh : runAct n a c with
        | none => simp only [runActs, hh] at h; exact Option.noConfusion h
        | some c1 =>
          simp only [runActs, hh] at h
          exact Pre.trans (ihAct _ _ _ hh) (ihActs _ _ _ h)
    have hUpd : ∀ body c c', appUpdate (n + 1) body c = some c' → Pre c c' := by
      intro body c c' h
      cases hh : runActs n body { c with pendingUpdates := c.pendingUpdates + 1 } with
      | none => simp only [appUpdate, hh] at h; exact Option.noConfusion h
      | some c2 =>
        simp only [appUpdate, hh] at h
        by_cases hz : c2.pendingUpdates - 1 = 0
        · rw [if_pos hz] at h
          exact Pre.of_inc_dec (ihActs _ _ _ hh) (ihFlush _ _ h)
        · rw [if_neg hz] at h
          simp only [Option.some.injEq] at h
          subst h
          exact Pre.of_inc_dec (ihActs _ _ _ hh) (Pre.of_fields rfl rfl rfl)
    have hNotify : ∀ id c c', applyNotifyEffect (n + 1) id c = some c' → Pre c c' := by
      intro id c c' h
      cases ho : alookup c.observers id with
      | none =>
        simp only [applyNotifyEffect, ho, Option.some.injEq] at h
        subst h; exact Pre.same
      | some hs =>
        simp only [applyNotifyEffect, ho] at h
        cases hr : runRetain n hs { c with observers := aremove c.observers id } with
        | none => simp only [hr] at h; exact Option.noConfusion h
        | some p =>
          obtain ⟨kept, c1⟩ := p
          simp only [hr, Option.some.injEq] at h
          subst h
          have p1 : Pre c { c with observers := aremove c.observers id } :=
            Pre.of_fields rfl rfl rfl
          have p2 : Pre { c with observers := aremove c.observers id } c1 :=
            ihRetain _ _ _ _ hr
          have p3 : Pre c1
              { c1 with observers := ainsert (aremove c1.observers id) id (kept ++ (alookup c1.observers id).getD []) } :=
            Pre.of_fields rfl rfl rfl
          exact Pre.trans (Pre.trans p1 p2) p3
    have hRetain : ∀ hs c kept c', runRetain (n + 1) hs c = some (kept, c') → Pre c c' := by
      intro hs c kept c' h
      cases hs with
      | nil =>
        simp only [runRetain, Option.some.injEq, Prod.mk.injEq] at h
        obtain ⟨_, h2⟩ := h
        subst h2; exact Pre.same
      | cons hd t =>
        cases ha : runActs n hd.acts { c with trace := c.trace ++ [Ev.inv hd.label] } with
        | none => simp only [runRetain, ha] at h; exact Option.noConfusion h
        | some c1 =>
          simp only [runRetain, ha] at h
          cases hr : runRetain n t c1 with
          | none => simp only [hr] at h; exact Option.noConfusion h
          | some p =>
            obtain ⟨kept2, c2⟩ := p
            simp only [hr, Option.some.injEq, Prod.mk.injEq] at h
            obtain ⟨_, h2⟩ := h
            subst h2
            exact Pre.trans (Pre.trans Pre.inv_ev (ihActs _ _ _ ha)) (ihRetain _ _ _ _ hr)
    have hUwd : ∀ id c c', updateWindowDraw (n + 1) id c = some c' → Pre c c' := by
      intro id c c' h
      cases hb : updateWindowBody id (drawW id)
          { c with pendingUpdates := c.pendingUpdates + 1 } with
      | none => simp only [updateWindowDraw, hb] at h; exact Option.noConfusion h
      | some p =>
        obtain ⟨r, c2⟩ := p
        simp only [updateWindowDraw, hb] at h
        obtain ⟨f1, f2, f3, _, _⟩ := updateWindowBody_drawW_fields hb
        have pmid : Pre { c with pendingUpdates := c.pendingUpdates + 1 } c2 :=
          Pre.of_fields f1 f2 f3
        by_cases hz : c2.pendingUpdates - 1 = 0
        · rw [if_pos hz] at h
          cases hf : flushEffects n { c2 with pendingUpdates := c2.pendingUpdates - 1 } with
          | none => simp only [hf] at h; exact Option.noConfusion h
          | some c4 =>
            simp only [hf] at h
            cases r with
            | error e => exact Option.noConfusion h
            | ok u =>
              simp only [Option.some.injEq] at h
              subst h
              exact Pre.of_inc_dec pmid (ihFlush _ _ hf)
        · rw [if_neg hz] at h
          cases r with
          | error e => exact Option.noConfusion h
          | ok u =>
            simp only [Option.some.injEq] at h
            subst h
            exact Pre.of_inc_dec pmid (Pre.of_fields rfl rfl rfl)
    have hRedraw : ∀ ids c c', redrawWindows (n + 1) ids c = some c' → Pre c c' := by
      intro ids c c' h
      cases ids with
      | nil =>
        simp only [redrawWindows, Option.some.injEq] at h
        subst h; exact Pre.same
      | cons id t =>
        cases hh : updateWindowDraw n id c with
        | none => simp only [redrawWindows, hh] at h; exact Option.noConfusion h
        | some c1 =>
          simp only [redrawWindows, hh] at h
          exact Pre.trans (ihUwd _ _ _ hh) (ihRedraw _ _ _ h)
    have hFlush : ∀ c c', flushEffects (n + 1) c = some c' → Pre c c' := by
      intro c c' h
      cases hq : c.pendingEffects with
      | nil =>
        cases hd : dirtyIds c.windows with
        | none => simp only [flushEffects, hq, hd] at h; exact Option.noConfusion h
        | some ids =>
          simp only [flushEffects, hq, hd] at h
          exact ihRedraw _ _ _ h
      | cons e rest =>
        cases e with
        | Notify id =>
          cases hn : applyNotifyEffect n id
              { c with pendingEffects := rest, trace := c.trace ++ [Ev.app id] } with
          | none => simp only [flushEffects, hq, hn] at h; exact Option.noConfusion h
          | some c1 =>
            simp only [flushEffects, hq, hn] at h
            exact Pre.trans (Pre.trans (Pre.pop hq) (ihNotify _ _ _ hn)) (ihFlush _ _ h)
    exact ⟨hAct, hActs, hUpd, hFlush, hNotify, hRetain, hRedraw, hUwd⟩

/-- While the reentrancy counter is positive (i.e. inside an outer
`update`), running actions — nested `update`s included — never applies an
effect (`flush_effects` is not reached) and only appends to the back of the
pending queue. -/
theorem noFlushInNested : ∀ fuel : Nat,
    (∀ a c c', 0 < c.pendingUpdates → runAct fuel a c = some c' →
        apps c'.trace = apps c.trace
          ∧ ∃ new, c'.pendingEffects = c.pendingEffects ++ new)
    ∧ (∀ acts c c', 0 < c.pendingUpdates → runActs fuel acts c = some c' →
        apps c'.trace = apps c.trace
          ∧ ∃ new, c'.pendingEffects = c.pendingEffects ++ new)
    ∧ (∀ body c c', 0 < c.pendingUpdates → appUpdate fuel body c = some c' →
        apps c'.trace = apps c.trace
          ∧ ∃ new, c'.pendingEffects = c.pendingEffects ++ new) := by
  intro fuel
  induction fuel with
  | zero =>
    exact ⟨fun _ _ _ _ h => Option.noConfusion h, fun _ _ _ _ h => Option.noConfusion h,
           fun _ _ _ _ h => Option.noConfusion h⟩
  | succ n ih =>
    obtain ⟨ihAct, ihActs, ihUpd⟩ := ih
    have hAct : ∀ a c c', 0 < c.pendingUpdates → runAct (n + 1) a c = some c' →
        apps c'.trace = apps c.trace
          ∧ ∃ new, c'.pendingEffects = c.pendingEffects ++ new := by
      intro a c c' hpos h
      cases a with
      | enqueue id =>
        simp only [runAct, Option.some.injEq] at h
        subst h
        exact ⟨by simp [enqueueNotify, apps], ⟨[Effect.Notify id], rfl⟩⟩
      | observe id label body ret =>
        simp only [runAct, Option.some.injEq] at h
        subst h
        exact ⟨rfl, ⟨[], by simp [registerObserver]⟩⟩
      | nested body =>
        simp only [runAct] at h
        exact ihUpd body c c' hpos h
    have hActs : ∀ acts c c', 0 < c.pendingUpdates → runActs (n + 1) acts c = some c' →
        apps c'.trace = apps c.trace
          ∧ ∃ new, c'.pendingEffects = c.pendingEffects ++ new := by
      intro acts c c' hpos h
      cases acts with
      | nil =>
        simp only [runActs, Option.some.injEq] at h
        subst h
        exact ⟨rfl, ⟨[], by simp⟩⟩
      | cons a t =>
        cases hh : runAct n a c with
        | none => simp only [runActs, hh] at h; exact Option.noConfusion h
        | some c1 =>
          simp only [runActs, hh] at h
          have hcnt : c1.pendingUpdates = c.pendingUpdates := ((stepProps n).1 _ _ _ hh).1
          obtain ⟨a1, new1, q1⟩ := ihAct _ _ _ hpos hh
          obtain ⟨a2, new2, q2⟩ := ihActs _ _ _ (hcnt ▸ hpos) h
          exact ⟨a2.trans a1, ⟨new1 ++ new2, by rw [q2, q1, List.append_assoc]⟩⟩
    have hUpd : ∀ body c c', 0 < c.pendingUpdates → appUpdate (n + 1) body c = some c' →
        apps c'.trace = apps c.trace
          ∧ ∃ new, c'.pendingEffects = c.pendingEffects ++ new := by
      intro body c c' hpos h
      cases hh : runActs n body { c with pendingUpdates := c.pendingUpdates + 1 } with
      | none => simp only [appUpdate, hh] at h; exact Option.noConfusion h
      | some c2 =>
        simp only [appUpdate, hh] at h
        have hcnt : c2.pendingUpdates = c.pendingUpdates + 1 := ((stepProps n).2.1 _ _ _ hh).1
        have hz : ¬(c2.pendingUpdates - 1 = 0) := by omega
        rw [if_neg hz] at h
        simp only [Option.some.injEq] at h
        subst h
        exact ihActs body { c with pendingUpdates := c.pendingUpdates + 1 } c2 (Nat.succ_pos _) hh
    exact ⟨hAct, hActs, hUpd⟩

/-- When `flush_effects` returns, the pending queue is empty: the drain
loop re-checks emptiness each iteration, so effects enqueued by notify
handlers during the drain are drained too, and the redraw sweep enqueues
nothing. -/
theorem flushDrains : ∀ fuel : Nat,
    (∀ c c', flushEffects fuel c = some c' → c'.pendingEffects = [])
    ∧ (∀ ids c c', c.pendingEffects = [] → redrawWindows fuel ids c = some c' →
        c'.pendingEffects = [])
    ∧ (∀ id c c', c.pendingEffects = [] → updateWindowDraw fuel id c = some c' →
        c'.pendingEffects = []) := by
  intro fuel
  induction fuel with
  | zero =>
    exact ⟨fun _ _ h => Option.noConfusion h, fun _ _ _ _ h => Option.noConfusion h,
           fun _ _ _ _ h => Option.noConfusion h⟩
  | succ n ih =>
    obtain ⟨ihFlush, ihRedraw, ihUwd⟩ := ih
    have hUwd : ∀ id c c', c.pendingEffects = [] → updateWindowDraw (n + 1) id c = some c' →
        c'.pendingEffects = [] := by
      intro id c c' hq h
      cases hb : updateWindowBody id (drawW id)
          { c with pendingUpdates := c.pendingUpdates + 1 } with
      | none => simp only [updateWindowDraw, hb] at h; exact Option.noConfusion h
      | some p =>
        obtain ⟨r, c2⟩ := p
        simp only [updateWindowDraw, hb] at h
        obtain ⟨_, _, f3, _, _⟩ := updateWindowBody_drawW_fields hb
        by_cases hz : c2.pendingUpdates - 1 = 0
        · rw [if_pos hz] at h
          cases hf : flushEffects n { c2 with pendingUpdates := c2.pendingUpdates - 1 } with
          | none => simp only [hf] at h; exact Option.noConfusion h
          | some c4 =>
            simp only [hf] at h
            cases r with
            | error e => exact Option.noConfusion h
            | ok u =>
              simp only [Option.some.injEq] at h
              subst h
              exact ihFlush _ _ hf
        · rw [if_neg hz] at h
          cases r with
          | error e => exact Option.noConfusion h
          | ok u =>
            simp only [Option.some.injEq] at h
            subst h
            simpa using f3.trans hq
    have hRedraw : ∀ ids c c', c.pendingEffects = [] →
        redrawWindows (n + 1) ids c = some c' → c'.pendingEffects = [] := by
      intro ids c c' hq h
      cases ids with
      | nil =>
        simp only [redrawWindows, Option.some.injEq] at h
        subst h; exact hq
      | cons id t =>
        cases hh : updateWindowDraw n id c with
        | none => simp only [redrawWindows, hh] at h; exact Option.noConfusion h
        | some c1 =>
          simp only [redrawWindows, hh] at h
          exact ihRedraw _ _ _ (ihUwd _ _ _ hq hh) h
    have hFlush : ∀ c c', flushEffects (n + 1) c = some c' → c'.pendingEffects = [] := by
      intro c c' h
      cases hq : c.pendingEffects with
      | nil =>
        cases hd : dirtyIds c.windows with
        | none => simp only [flushEffects, hq, hd] at h; exact Option.noConfusion h
        | some ids =>
          simp only [flushEffects, hq, hd] at h
          exact ihRedraw _ _ _ hq h
      | cons e rest =>
        cases e with
        | Notify id =>
          cases hn : applyNotifyEffect n id
              { c with pendingEffects := rest, trace := c.trace ++ [Ev.app id] } with
          | none => simp only [flushEffects, hq, hn] at h; exact Option.noConfusion h
          | some c1 =>
            simp only [flushEffects, hq, hn] at h
            exact ihFlush _ _ h
    exact ⟨hFlush, hRedraw, hUwd⟩

/-- C1: for every sequence of nested `AppContext::update` calls — (1) while
an outer update is in progress (positive reentrancy counter), running any
actions (nested updates included) applies no effect and only appends to the
back of the pending queue, so the drain happens only after the outermost
closure returns; and (2) a top-level `update` on a context whose trace and
queue satisfy the queue invariant leaves the pending-effect queue empty —
effects enqueued by notify handlers during the drain itself included — with
the applied-effect sequence equal to the enqueued-effect sequence: every
enqueued effect is applied exactly once, in FIFO order. -/
theorem c1_update_schedule :
    (∀ fuel acts c c', 0 < c.pendingUpdates → runActs fuel acts c = some c' →
        apps c'.trace = apps c.trace
          ∧ ∃ new, c'.pendingEffects = c.pendingEffects ++ new)
    ∧ (∀ fuel body c c', c.pendingUpdates = 0 → Inv c →
        appUpdate fuel body c = some c' →
        c'.pendingEffects = [] ∧ enqs c'.trace = apps c'.trace) := by
  constructor
  · intro fuel acts c c' hpos h
    exact (noFlushInNested fuel).2.1 acts c c' hpos h
  · intro fuel body c c' hz hinv h
    have hq : c'.pendingEffects = [] := by
      cases fuel with
      | zero => exact Option.noConfusion h
      | succ n =>
        cases hh : runActs n body { c with pendingUpdates := c.pendingUpdates + 1 } with
        | none => simp only [appUpdate, hh] at h; exact Option.noConfusion h
        | some c2 =>
          simp only [appUpdate, hh] at h
          have hcnt : c2.pendingUpdates = c.pendingUpdates + 1 :=
            ((stepProps n).2.1 _ _ _ hh).1
          have hzz : c2.pendingUpdates - 1 = 0 := by omega
          rw [if_pos hzz] at h
          exact (flushDrains n).1 _ _ h
    have hInv : Inv c' := (((stepProps fuel).2.2.1 _ _ _ h).2.2) hinv
    refine ⟨hq, ?_⟩
    unfold Inv at hInv
    rw [hq] at hInv
    simpa using hInv

/-- A context one nested level deep (reentrancy counter 1). -/
def c1InnerCtx : Ctx := ⟨1, [], [], [], [], [], []⟩

/-- An idle top-level context (counter 0, empty queue and trace). -/
def c1TopCtx : Ctx := ⟨0, [], [], [], [], [], []⟩

/-- Witness for `c1_update_schedule` at concrete inputs: an enqueue one
nested level deep extends the queue without applying anything, and a
top-level update with one nested update drains effects 5 and 7 in FIFO
order. -/
theorem c1_update_schedule_witness :
    (0 < c1InnerCtx.pendingUpdates
      ∧ runActs 3 [Act.enqueue 3] c1InnerCtx
          = some ⟨1, [], [], [Effect.Notify 3], [], [Ev.enq 3], []⟩
      ∧ (apps (⟨1, [], [], [Effect.Notify 3], [], [Ev.enq 3], []⟩ : Ctx).trace
            = apps c1InnerCtx.trace
          ∧ ∃ new, (⟨1, [], [], [Effect.Notify 3], [], [Ev.enq 3], []⟩ : Ctx).pendingEffects
            = c1InnerCtx.pendingEffects ++ new))
    ∧ (c1TopCtx.pendingUpdates = 0
      ∧ Inv c1TopCtx
      ∧ appUpdate 6 [Act.nested [Act.enqueue 5], Act.enqueue 7] c1TopCtx
          = some ⟨0, [], [], [], [], [Ev.enq 5, Ev.enq 7, Ev.app 5, Ev.app 7], []⟩
      ∧ ((⟨0, [], [], [], [], [Ev.enq 5, Ev.enq 7, Ev.app 5, Ev.app 7], []⟩ : Ctx).pendingEffects = []
          ∧ enqs (⟨0, [], [], [], [], [Ev.enq 5, Ev.enq 7, Ev.app 5, Ev.app 7], []⟩ : Ctx).trace
            = apps (⟨0, [], [], [], [], [Ev.enq 5, Ev.enq 7, Ev.app 5, Ev.app 7], []⟩ : Ctx).trace)) :=
  ⟨⟨Nat.one_pos, rfl, c1_update_schedule.1 3 [Act.enqueue 3] c1InnerCtx _ Nat.one_pos rfl⟩,
   ⟨rfl, rfl, rfl,
    c1_update_schedule.2 6 [Act.nested [Act.enqueue 5], Act.enqueue 7] c1TopCtx _ rfl rfl rfl⟩⟩

/-- `retain` keeps exactly the handlers whose callback returned true, in
their original order. -/
theorem runRetain_filter : ∀ fuel hs c kept c',
    runRetain fuel hs c = some (kept, c') →
    kept = hs.filter (fun hd => hd.ret) := by
  intro fuel
  induction fuel with
  | zero => intro hs c kept c' h; exact Option.noConfusion h
  | succ n ih =>
    intro hs c kept c' h
    cases hs with
    | nil =>
      simp only [runRetain, Option.some.injEq, Prod.mk.injEq] at h
      obtain ⟨h1, _⟩ := h
      simp [← h1]
    | cons hd t =>
      cases ha : runActs n hd.acts { c with trace := c.trace ++ [Ev.inv hd.label] } with
      | none => simp only [runRetain, ha] at h; exact Option.noConfusion h
      | some c1 =>
        simp only [runRetain, ha] at h
        cases hr : runRetain n t c1 with
        | none => simp only [hr] at h; exact Option.noConfusion h
        | some p =>
          obtain ⟨kept2, c2⟩ := p
          simp only [hr, Option.some.injEq, Prod.mk.injEq] at h
          obtain ⟨h1, _⟩ := h
          have hk2 := ih t c1 kept2 c2 hr
          subst hk2
          cases hret : hd.ret with
          | true => simp only [hret, if_true] at h1; simp [← h1, List.filter_cons, hret]
          | false => simp only [hret, if_false] at h1; simp [← h1, List.filter_cons, hret]

/-- Running the taken-out handler list appends to the trace, and the
sequence of invocation events contains the handlers' labels in
registration order (interleaved only with events produced by the handlers
themselves). -/
theorem runRetain_invocation : ∀ fuel hs c kept c',
    runRetain fuel hs c = some (kept, c') →
    ∃ ts, c'.trace = c.trace ++ ts
      ∧ List.Sublist (hs.map (fun hd => hd.label)) (invs ts) := by
  intro fuel
  induction fuel with
  | zero => intro hs c kept c' h; exact Option.noConfusion h
  | succ n ih =>
    intro hs c kept c' h
    cases hs with
    | nil =>
      simp only [runRetain, Option.some.injEq, Prod.mk.injEq] at h
      obtain ⟨_, h2⟩ := h
      subst h2
      exact ⟨[], by simp, by simp [invs]⟩
    | cons hd t =>
      cases ha : runActs n hd.acts { c with trace := c.trace ++ [Ev.inv hd.label] } with
      | none => simp only [runRetain, ha] at h; exact Option.noConfusion h
      | some c1 =>
        simp only [runRetain, ha] at h
        cases hr : runRetain n t c1 with
        | none => simp only [hr] at h; exact Option.noConfusion h
        | some p =>
          obtain ⟨kept2, c2⟩ := p
          simp only [hr, Option.some.injEq, Prod.mk.injEq] at h
          obtain ⟨_, h2⟩ := h
          subst h2
          obtain ⟨ta, ea⟩ := ((stepProps n).2.1 _ _ _ ha).2.1
          simp only at ea
          obtain ⟨tt, et, subt⟩ := ih t c1 kept2 c2 hr
          refine ⟨Ev.inv hd.label :: (ta ++ tt), ?_, ?_⟩
          · rw [et, ea]; simp
          · simp only [invs, invs_append, List.map_cons]
            exact List.Sublist.cons₂ _ (subt.trans (List.sublist_append_right _ _))

@[simp] theorem alookup_ainsert_self {α : Type} (m : List (Nat × α)) (k : Nat) (v : α) :
    alookup (ainsert m k v) k = some v := by
  simp [ainsert, alookup]

/-- C2: applying `Notify(id)` when `id` has a registered observer list
`hs` — (a) the list is removed from the table and the handlers run against
the context with the entry removed; (b) each observer is invoked in
registration order (its label appears in the invocation trace, in order);
(c) exactly the observers whose callback returned true are retained;
(d) observers registered for the same id during the notification are
appended after the filtered original set; (e) the combined list is
reinserted under `id`. -/
theorem c2_apply_notify (fuel : Nat) (id : EntityId) (hs : List Handler) (c c' : Ctx)
    (hobs : alookup c.observers id = some hs)
    (h : applyNotifyEffect (fuel + 1) id c = some c') :
    ∃ kept c1,
      runRetain fuel hs { c with observers := aremove c.observers id } = some (kept, c1)
      ∧ kept = hs.filter (fun hd => hd.ret)
      ∧ alookup c'.observers id = some (kept ++ (alookup c1.observers id).getD [])
      ∧ (∃ ts, c1.trace = c.trace ++ ts
          ∧ List.Sublist (hs.map (fun hd => hd.label)) (invs ts)) := by
  cases hr : runRetain fuel hs { c with observers := aremove c.observers id } with
  | none => simp only [applyNotifyEffect, hobs, hr] at h; exact Option.noConfusion h
  | some p =>
    obtain ⟨kept, c1⟩ := p
    simp only [applyNotifyEffect, hobs, hr, Option.some.injEq] at h
    subst h
    exact ⟨kept, c1, rfl,
      runRetain_filter fuel hs { c with observers := aremove c.observers id } kept c1 hr,
      by simp,
      runRetain_invocation fuel hs { c with observers := aremove c.observers id } kept c1 hr⟩

/-- The context of the C2 witness: entity 3 has two observers — label 10
(returns true, does nothing) and label 11 (registers observer 12 for the
same entity while notifying, then returns false). -/
def c2Ctx : Ctx :=
  ⟨0, [], [], [], [(3, [⟨10, [], true⟩, ⟨11, [Act.observe 3 12 [] true], false⟩])], [], []⟩

/-- Witness for `c2_apply_notify`: notifying entity 3 of `c2Ctx` runs
observers 10 and 11 in order, drops 11 (returned false), and reinserts
[10, 12] — 12 having been registered during the notification. -/
theorem c2_apply_notify_witness :
    alookup c2Ctx.observers 3
        = some [⟨10, [], true⟩, ⟨11, [Act.observe 3 12 [] true], false⟩]
    ∧ applyNotifyEffect 10 3 c2Ctx
        = some ⟨0, [], [], [],
            [(3, [⟨10, [], true⟩, ⟨12, [], true⟩])], [Ev.inv 10, Ev.inv 11], []⟩
    ∧ (∃ kept c1,
        runRetain 9 [⟨10, [], true⟩, ⟨11, [Act.observe 3 12 [] true], false⟩]
            { c2Ctx with observers := aremove c2Ctx.observers 3 } = some (kept, c1)
        ∧ kept = List.filter (fun hd => hd.ret)
            [⟨10, [], true⟩, ⟨11, [Act.observe 3 12 [] true], false⟩]
        ∧ alookup (⟨0, [], [], [],
              [(3, [⟨10, [], true⟩, ⟨12, [], true⟩])], [Ev.inv 10, Ev.inv 11], []⟩ : Ctx).observers 3
            = some (kept ++ (alookup c1.observers 3).getD [])
        ∧ (∃ ts, c1.trace = c2Ctx.trace ++ ts
            ∧ List.Sublist
                (List.map (fun hd => hd.label)
                  [(⟨10, [], true⟩ : Handler), ⟨11, [Act.observe 3 12 [] true], false⟩])
                (invs ts))) :=
  ⟨rfl, rfl, c2_apply_notify 9 3 _ c2Ctx _ rfl rfl⟩

/-- The identity entity-update closure. -/
def noopE : Nat → ModelContext → Option (Nat × ModelContext × Unit) :=
  fun v mc => some (v, mc, ())

/-- The identity window-update closure. -/
def noopW : WindowClosure Unit :=
  fun w c => some (w, c, ())

/-- Counterexample to C3 as stated: running `update_entity` with a closure
that does not itself notify leaves the pending-effect queue empty —
`update_entity` enqueues no `Notify(id)` effect of its own. -/
theorem c3_counterexample :
    (updateEntity (⟨0, [(0, some ⟨0, 41⟩)], [], [], [], [], []⟩ : Ctx) ⟨0, 0⟩ noopE).map
        (fun p => p.1.pendingEffects) = some [] := rfl

@[simp] theorem alookup_aset_self {α : Type} (m : List (Nat × α)) (k : Nat) (v : α) :
    alookup (aset m k v) k = some v := by
  induction m with
  | nil => simp [aset, alookup]
  | cons p t ih =>
    obtain ⟨k', v'⟩ := p
    by_cases hk : k' = k
    · subst hk; simp [aset, alookup]
    · simp [aset, alookup, hk, ih]

theorem alookup_aset_ne {α : Type} (m : List (Nat × α)) (k k' : Nat) (v : α)
    (hne : k' ≠ k) : alookup (aset m k v) k' = alookup m k' := by
  induction m with
  | nil => simp [aset, alookup, Ne.symm hne]
  | cons p t ih =>
    obtain ⟨k1, v1⟩ := p
    by_cases hk : k1 = k
    · subst hk
      simp only [aset, if_pos rfl, alookup]
      rw [if_neg (Ne.symm hne), if_neg (Ne.symm hne)]
    · simp only [aset, if_neg hk, alookup]
      by_cases hk1 : k1 = k'
      · rw [if_pos hk1, if_pos hk1]
      · rw [if_neg hk1, if_neg hk1]; exact ih

/-- C3 (amended): for a handle whose slot holds a value of the handle's
type, `update_entity` vacates the slot, invokes the closure on the value
and a scoped context carrying the owning id, puts the returned value back
under the handle's tag, and returns the closure's result; the final
pending-effect queue is exactly the one the closure left — `update_entity`
itself enqueues no `Notify(id)` effect. -/
theorem c3_update_entity {R : Type} (c : Ctx) (h : Handle) (ev : EVal)
    (f : Nat → ModelContext → Nat × ModelContext × R)
    (v' : Nat) (mc' : ModelContext) (r : R)
    (hslot : alookup c.entities h.id = some (some ev))
    (htag : ev.tag = h.tag)
    (hf : f ev.val ⟨{ c with entities := aset c.entities h.id none }, h.id⟩ = (v', mc', r))
    (hback : (alookup mc'.app.entities h.id).isSome = true) :
    updateEntity c h (fun v mc => some (f v mc))
        = some ({ mc'.app with
            entities := aset mc'.app.entities h.id (some ⟨h.tag, v'⟩) }, r)
      ∧ ({ mc'.app with
            entities := aset mc'.app.entities h.id (some ⟨h.tag, v'⟩) } : Ctx).pendingEffects
          = mc'.app.pendingEffects := by
  refine ⟨?_, rfl⟩
  simp only [updateEntity, hslot, htag, if_true, hf]
  cases hb : alookup mc'.app.entities h.id with
  | none => rw [hb] at hback; simp at hback
  | some _ => rfl

/-- Witness for `c3_update_entity`: incrementing entity 0's value from 41
to 42 and returning the old value. -/
theorem c3_update_entity_witness :
    alookup (⟨0, [(0, some ⟨0, 41⟩)], [], [], [], [], []⟩ : Ctx).entities 0
        = some (some ⟨0, 41⟩)
    ∧ (⟨0, 41⟩ : EVal).tag = (⟨0, 0⟩ : Handle).tag
    ∧ (fun (v : Nat) (mc : ModelContext) => (v + 1, mc, v)) 41
        ⟨{ (⟨0, [(0, some ⟨0, 41⟩)], [], [], [], [], []⟩ : Ctx) with
            entities := aset (⟨0, [(0, some ⟨0, 41⟩)], [], [], [], [], []⟩ : Ctx).entities 0 none }, 0⟩
        = (42, ⟨⟨0, [(0, none)], [], [], [], [], []⟩, 0⟩, 41)
    ∧ (alookup (⟨0, [(0, none)], [], [], [], [], []⟩ : Ctx).entities 0).isSome = true
    ∧ updateEntity (⟨0, [(0, some ⟨0, 41⟩)], [], [], [], [], []⟩ : Ctx) ⟨0, 0⟩
        (fun v mc => some ((fun (v : Nat) (mc : ModelContext) => (v + 1, mc, v)) v mc))
        = some ({ (⟨⟨0, [(0, none)], [], [], [], [], []⟩, 0⟩ : ModelContext).app with
            entities := aset (⟨0, [(0, none)], [], [], [], [], []⟩ : Ctx).entities 0
              (some ⟨0, 42⟩) }, 41) :=
  ⟨rfl, rfl, rfl, rfl,
    (c3_update_entity (⟨0, [(0, some ⟨0, 41⟩)], [], [], [], [], []⟩ : Ctx) ⟨0, 0⟩ ⟨0, 41⟩
      (fun v mc => (v + 1, mc, v)) 42 ⟨⟨0, [(0, none)], [], [], [], [], []⟩, 0⟩ 41
      rfl rfl rfl rfl).1⟩

/-- C4: while an update of entity X is in progress the slot of X holds
None — (1) `update_entity` on a context whose slot for the id is vacant
panics (fails fast); (2) the closure of an update observes the vacated
slot (a spy closure checking the slot sees `some none`); (3) a re-entrant
same-id `update_entity` from within the closure panics the whole update
rather than aliasing; (4) an update of a different live id from within the
closure succeeds. -/
theorem c4_reentrancy :
    (∀ {R : Type} (c : Ctx) (h : Handle)
        (f : Nat → ModelContext → Option (Nat × ModelContext × R)),
        alookup c.entities h.id = some none → updateEntity c h f = none)
    ∧ (∀ (c : Ctx) (h : Handle) (ev : EVal),
        alookup c.entities h.id = some (some ev) → ev.tag = h.tag →
        (updateEntity c h (fun v mc =>
            some (v, mc, decide (alookup mc.app.entities h.id = some none)))).map
          (fun p => p.2) = some true)
    ∧ (∀ {R : Type} (c : Ctx) (h : Handle) (ev : EVal)
        (g : Nat → ModelContext → Option (Nat × ModelContext × R)),
        alookup c.entities h.id = some (some ev) → ev.tag = h.tag →
        updateEntity c h (fun v mc =>
            match updateEntity mc.app h g with
            | none => none
            | some (c2, r) => some (v, ⟨c2, mc.entity_id⟩, r)) = none)
    ∧ (∀ (c : Ctx) (h h2 : Handle) (ev ev2 : EVal), h2.id ≠ h.id →
        alookup c.entities h.id = some (some ev) → ev.tag = h.tag →
        alookup c.entities h2.id = some (some ev2) → ev2.tag = h2.tag →
        (updateEntity c h (fun v mc =>
            match updateEntity mc.app h2 noopE with
            | none => some (v, mc, false)
            | some (c2, _) => some (v, ⟨c2, mc.entity_id⟩, true))).map
          (fun p => p.2) = some true) := by
  refine ⟨?_, ?_, ?_, ?_⟩
  · intro R c h f hv
    simp only [updateEntity, hv]
  · intro c h ev hv htag
    simp only [updateEntity, hv, htag, if_true]
    simp [alookup_aset_self]
  · intro R c h ev g hv htag
    simp only [updateEntity, hv, htag, if_true, alookup_aset_self]
  · intro c h h2 ev ev2 hne hv htag hv2 htag2
    have l1 : ∀ (v : Option EVal) (m : List (EntityId × Option EVal)),
        alookup (aset m h.id v) h2.id = alookup m h2.id :=
      fun v m => alookup_aset_ne m h.id h2.id v hne
    have l2 : ∀ (v : Option EVal) (m : List (EntityId × Option EVal)),
        alookup (aset m h2.id v) h.id = alookup m h.id :=
      fun v m => alookup_aset_ne m h2.id h.id v (Ne.symm hne)
    simp only [updateEntity, hv, htag, if_true, l1, l2, hv2, htag2,
      alookup_aset_self, noopE, eq_self_iff_true, Option.map_some']

/-- A store with two live entities (ids 0 and 1, distinct type tags) for
the C4 witness, plus a store whose only slot is vacant. -/
def c4Ctx : Ctx := ⟨0, [(0, some ⟨0, 5⟩), (1, some ⟨7, 9⟩)], [], [], [], [], []⟩

/-- A context whose entity slot 0 is vacant (an update of 0 in progress). -/
def c4VacantCtx : Ctx := ⟨0, [(0, none)], [], [], [], [], []⟩

/-- Witness for `c4_reentrancy` at entities 0 and 1 of `c4Ctx`. -/
theorem c4_reentrancy_witness :
    (alookup c4VacantCtx.entities 0 = some none
      ∧ updateEntity c4VacantCtx ⟨0, 0⟩ noopE = none)
    ∧ (alookup c4Ctx.entities 0 = some (some ⟨0, 5⟩)
      ∧ (⟨0, 5⟩ : EVal).tag = (⟨0, 0⟩ : Handle).tag
      ∧ (updateEntity c4Ctx ⟨0, 0⟩ (fun v mc =>
            some (v, mc, decide (alookup mc.app.entities (0 : Nat) = some none)))).map
          (fun p => p.2) = some true)
    ∧ updateEntity c4Ctx ⟨0, 0⟩ (fun v mc =>
          match updateEntity mc.app ⟨0, 0⟩ noopE with
          | none => none
          | some (c2, r) => some (v, ⟨c2, mc.entity_id⟩, r)) = none
    ∧ ((1 : Nat) ≠ (0 : Nat)
      ∧ (updateEntity c4Ctx ⟨0, 0⟩ (fun v mc =>
            match updateEntity mc.app ⟨1, 7⟩ noopE with
            | none => some (v, mc, false)
            | some (c2, _) => some (v, ⟨c2, mc.entity_id⟩, true))).map
          (fun p => p.2) = some true) :=
  ⟨⟨rfl, c4_reentrancy.1 c4VacantCtx ⟨0, 0⟩ noopE rfl⟩,
   ⟨rfl, rfl, c4_reentrancy.2.1 c4Ctx ⟨0, 0⟩ ⟨0, 5⟩ rfl rfl⟩,
   c4_reentrancy.2.2.1 c4Ctx ⟨0, 0⟩ ⟨0, 5⟩ noopE rfl rfl,
   ⟨by decide, c4_reentrancy.2.2.2 c4Ctx ⟨0, 0⟩ ⟨1, 7⟩ ⟨0, 5⟩ ⟨7, 9⟩ (by decide) rfl rfl rfl rfl⟩⟩

/-- Every window slot occupied and no window dirty. -/
def windowsClean : List (WindowId × Option Window) → Bool
  | [] => true
  | (_, some w) :: t => !w.dirty && windowsClean t
  | (_, none) :: _ => false

theorem dirtyIds_of_clean : ∀ ws, windowsClean ws = true → dirtyIds ws = some [] := by
  intro ws
  induction ws with
  | nil => intro _; rfl
  | cons p t ih =>
    intro h
    obtain ⟨id, w⟩ := p
    cases w with
    | none => simp [windowsClean] at h
    | some w =>
      simp only [windowsClean, Bool.and_eq_true, Bool.not_eq_true'] at h
      obtain ⟨h1, h2⟩ := h
      simp [dirtyIds, ih h2, h1]

/-- C7 (amended): (1) `update_window` on an id absent from the window map
returns the explicit `Err("window not found")` — no panic — provided the
remaining slots are occupied and clean and no update is in progress (so the
trailing flush is a no-op); (2) on a present window, called while an outer
update is in progress, it takes the window out of its slot, runs the
closure on it and the context, marks the window dirty, puts it back, and
returns `Ok` of the closure's result. -/
theorem c7_update_window {R : Type} :
    (∀ (fuel : Nat) (id : WindowId) (f : WindowClosure R) (c : Ctx),
        alookup c.windows id = none → c.pendingUpdates = 0 → c.pendingEffects = [] →
        windowsClean c.windows = true →
        ∃ cr, updateWindow (fuel + 1 + 1) id f c
          = WRes.ok (Except.error "window not found") cr)
    ∧ (∀ (fuel : Nat) (id : WindowId) (f : WindowClosure R) (c : Ctx)
        (w w' : Window) (c2 : Ctx) (r : R),
        0 < c.pendingUpdates →
        alookup c.windows id = some (some w) →
        f w { c with pendingUpdates := c.pendingUpdates + 1,
                     windows := aset c.windows id none } = some (w', c2, r) →
        c2.pendingUpdates = c.pendingUpdates + 1 →
        (alookup c2.windows id).isSome = true →
        updateWindow fuel id f c
          = WRes.ok (Except.ok r)
              { c2 with windows := aset c2.windows id (some { w' with dirty := true }),
                        pendingUpdates := c2.pendingUpdates - 1 }) := by
  constructor
  · intro fuel id f c hno hz hq hclean
    have hb : updateWindowBody id f { c with pendingUpdates := c.pendingUpdates + 1 }
        = some (Except.error "window not found",
            { c with pendingUpdates := c.pendingUpdates + 1 }) := by
      simp only [updateWindowBody, hno]
    refine ⟨{ c with pendingUpdates := c.pendingUpdates + 1 - 1 }, ?_⟩
    have hflush : flushEffects (fuel + 1 + 1)
        { c with pendingUpdates := c.pendingUpdates + 1 - 1 } = some
        { c with pendingUpdates := c.pendingUpdates + 1 - 1 } := by
      simp only [flushEffects, hq, dirtyIds_of_clean _ hclean, redrawWindows]
    simp only [updateWindow, hb]
    split
    · rw [hflush]
    · rfl
  · intro fuel id f c w w' c2 r hpos hw hf hcnt hback
    have hb : updateWindowBody id f { c with pendingUpdates := c.pendingUpdates + 1 }
        = some (Except.ok r,
            { c2 with windows := aset c2.windows id (some { w' with dirty := true }) }) := by
      simp only [updateWindowBody, hw, hf]
      cases hb2 : alookup c2.windows id with
      | none => rw [hb2] at hback; simp at hback
      | some _ => rfl
    have hnz : ¬(c2.pendingUpdates - 1 = 0) := by omega
    simp only [updateWindow, hb, hnz, if_false]

/-- Counterexample to C7 as stated: window id 0 is present in the map but
its slot is vacant (a window being opened, or taken by a reentrant
update) — the id does not resolve to a present window, yet `update_window`
panics on the vacated slot instead of returning the "window not found"
error. -/
theorem c7_counterexample :
    updateWindow 5 0 noopW ⟨0, [], [(0, none)], [], [], [], []⟩ = WRes.panicked := rfl

/-- Witness for `c7_update_window`: a removed id yields the error; a
nested update of present window 0 marks it dirty and returns the closure
result. -/
theorem c7_update_window_witness :
    (alookup (⟨0, [], [(1, some ⟨false, true⟩)], [], [], [], []⟩ : Ctx).windows 0 = none
      ∧ (⟨0, [], [(1, some ⟨false, true⟩)], [], [], [], []⟩ : Ctx).pendingUpdates = 0
      ∧ (⟨0, [], [(1, some ⟨false, true⟩)], [], [], [], []⟩ : Ctx).pendingEffects = []
      ∧ windowsClean (⟨0, [], [(1, some ⟨false, true⟩)], [], [], [], []⟩ : Ctx).windows = true
      ∧ (∃ cr, updateWindow 2 0 noopW (⟨0, [], [(1, some ⟨false, true⟩)], [], [], [], []⟩ : Ctx)
          = WRes.ok (Except.error "window not found") cr))
    ∧ (0 < (⟨1, [], [(0, some ⟨false, true⟩)], [], [], [], []⟩ : Ctx).pendingUpdates
      ∧ alookup (⟨1, [], [(0, some ⟨false, true⟩)], [], [], [], []⟩ : Ctx).windows 0
          = some (some ⟨false, true⟩)
      ∧ noopW ⟨false, true⟩
          { (⟨1, [], [(0, some ⟨false, true⟩)], [], [], [], []⟩ : Ctx) with
              pendingUpdates := (⟨1, [], [(0, some ⟨false, true⟩)], [], [], [], []⟩ : Ctx).pendingUpdates + 1,
              windows := aset (⟨1, [], [(0, some ⟨false, true⟩)], [], [], [], []⟩ : Ctx).windows 0 none }
          = some (⟨false, true⟩, ⟨2, [], [(0, none)], [], [], [], []⟩, ())
      ∧ (⟨2, [], [(0, none)], [], [], [], []⟩ : Ctx).pendingUpdates
          = (⟨1, [], [(0, some ⟨false, true⟩)], [], [], [], []⟩ : Ctx).pendingUpdates + 1
      ∧ (alookup (⟨2, [], [(0, none)], [], [], [], []⟩ : Ctx).windows 0).isSome = true
      ∧ updateWindow 0 0 noopW (⟨1, [], [(0, some ⟨false, true⟩)], [], [], [], []⟩ : Ctx)
          = WRes.ok (Except.ok ())
              { (⟨2, [], [(0, none)], [], [], [], []⟩ : Ctx) with
                  windows := aset (⟨2, [], [(0, none)], [], [], [], []⟩ : Ctx).windows 0
                    (some { (⟨false, true⟩ : Window) with dirty := true }),
                  pendingUpdates := (⟨2, [], [(0, none)], [], [], [], []⟩ : Ctx).pendingUpdates - 1 }) :=
  ⟨⟨rfl, rfl, rfl, rfl,
    c7_update_window.1 0 0 noopW ⟨0, [], [(1, some ⟨false, true⟩)], [], [], [], []⟩
      rfl rfl rfl rfl⟩,
   ⟨Nat.one_pos, rfl, rfl, rfl, rfl,
    c7_update_window.2 0 0 noopW ⟨1, [], [(0, some ⟨false, true⟩)], [], [], [], []⟩
      ⟨false, true⟩ ⟨false, true⟩ ⟨2, [], [(0, none)], [], [], [], []⟩ ()
      Nat.one_pos rfl rfl rfl rfl⟩⟩

/-- The shape the redraw sweep of `flush_effects` preserves forever: idle
counter, empty effect queue, and two present dirty windows (ids 0 and 1,
with arbitrary draw outcomes). -/
def twoDirty (c : Ctx) : Prop :=
  c.pendingUpdates = 0 ∧ c.pendingEffects = []
    ∧ ∃ a b, c.windows = [(0, some ⟨true, a⟩), (1, some ⟨true, b⟩)]

theorem c8Aux : ∀ fuel : Nat,
    (∀ c, twoDirty c → flushEffects fuel c = none)
    ∧ (∀ c t, twoDirty c → redrawWindows fuel (0 :: t) c = none)
    ∧ (∀ c, twoDirty c → updateWindowDraw fuel 0 c = none) := by
  intro fuel
  induction fuel with
  | zero => exact ⟨fun _ _ => rfl, fun _ _ _ => rfl, fun _ _ => rfl⟩
  | succ n ih =>
    obtain ⟨ihF, ihR, ihU⟩ := ih
    have hU : ∀ c, twoDirty c → updateWindowDraw (n + 1) 0 c = none := by
      intro c hc
      obtain ⟨hz, hq, a, b, hw⟩ := hc
      have hb : updateWindowBody 0 (drawW 0) { c with pendingUpdates := c.pendingUpdates + 1 }
          = some (Except.ok (if a then Except.ok () else Except.error "draw failed"),
              { c with pendingUpdates := c.pendingUpdates + 1,
                       windows := [(0, some ⟨true, a⟩), (1, some ⟨true, b⟩)],
                       drawLog := c.drawLog ++ [0] }) := by
        simp [updateWindowBody, drawW, alookup, aset, hw]
      simp only [updateWindowDraw, hb]
      have hfl : flushEffects n
          { c with pendingUpdates := c.pendingUpdates + 1 - 1,
                   windows := [(0, some ⟨true, a⟩), (1, some ⟨true, b⟩)],
                   drawLog := c.drawLog ++ [0] } = none :=
        ihF _ ⟨by simpa using hz, hq, a, b, rfl⟩
      split
      · rfl
      · next c4 heq =>
        rw [if_pos (show c.pendingUpdates + 1 - 1 = 0 by omega), hfl] at heq
        exact Option.noConfusion heq
    have hR : ∀ c t, twoDirty c → redrawWindows (n + 1) (0 :: t) c = none := by
      intro c t hc
      simp only [redrawWindows, ihU c hc]
    have hF : ∀ c, twoDirty c → flushEffects (n + 1) c = none := by
      intro c hc
      obtain ⟨hz, hq, a, b, hw⟩ := hc
      have hd : dirtyIds c.windows = some [0, 1] := by rw [hw]; simp [dirtyIds]
      simp only [flushEffects, hq, hd]
      exact ihR c [1] ⟨hz, hq, a, b, hw⟩
    exact ⟨hF, hR, hU⟩

/-- C8: in the scenario of the claim — windows 0 and 1 both present and
dirty (window 0's draw failing, window 1's succeeding), empty effect
queue, no update in progress — `flush_effects` does not terminate at any
fuel: its redraw of window 0 re-enters `update`, whose trailing flush sees
window 0 dirty again (`update_window` re-marks every updated window
dirty), recursing forever before window 1 is ever drawn. -/
theorem c8_flush_diverges : ∀ fuel : Nat,
    flushEffects fuel
      ⟨0, [], [(0, some ⟨true, false⟩), (1, some ⟨true, true⟩)], [], [], [], []⟩ = none :=
  fun fuel => (c8Aux fuel).1 _ ⟨rfl, rfl, false, true, rfl⟩

/-- C9: the liveness check of `WeakHandle::upgrade` is a stub — upgrading
a weak handle whose entity (id 0) has been removed from the store still
returns a handle, and `WeakHandle::update` on it then panics on the
missing arena slot instead of returning the documented "entity release"
error. -/
theorem c9_weak_release :
    WeakHandle.upgrade ⟨0, 0⟩ = some ⟨0, 0⟩
    ∧ WeakHandle.updateWeak ⟨0, 0⟩ ⟨0, [], [], [], [], [], []⟩ noopE = none :=
  ⟨rfl, rfl⟩

/-- C6: a mouse-down/up listener registered via `on_mouse_down` /
`on_mouse_up` invokes its handler iff the phase is Bubble, the event's
button matches the registered button, and the position is inside the
bounds; one registered via `on_mouse_down_out` / `on_mouse_up_out` invokes
its handler iff the phase is Capture, the button matches, and the position
is outside; and the four registration functions append exactly those
wrappers to the listener lists. -/
theorem c6_listener_guards :
    (∀ (b : MouseButton) (l : Nat) (e : MouseDownEvent) (bounds : Bounds)
        (phase : DispatchPhase),
        MouseDownListener.fires (.inside b l) e bounds phase = true
          ↔ phase = DispatchPhase.Bubble ∧ e.button = b
              ∧ bounds.containsPoint e.position = true)
    ∧ (∀ (b : MouseButton) (l : Nat) (e : MouseDownEvent) (bounds : Bounds)
        (phase : DispatchPhase),
        MouseDownListener.fires (.outside b l) e bounds phase = true
          ↔ phase = DispatchPhase.Capture ∧ e.button = b
              ∧ bounds.containsPoint e.position = false)
    ∧ (∀ (b : MouseButton) (l : Nat) (e : MouseUpEvent) (bounds : Bounds)
        (phase : DispatchPhase),
        MouseUpListener.fires (.inside b l) e bounds phase = true
          ↔ phase = DispatchPhase.Bubble ∧ e.button = b
              ∧ bounds.containsPoint e.position = true)
    ∧ (∀ (b : MouseButton) (l : Nat) (e : MouseUpEvent) (bounds : Bounds)
        (phase : DispatchPhase),
        MouseUpListener.fires (.outside b l) e bounds phase = true
          ↔ phase = DispatchPhase.Capture ∧ e.button = b
              ∧ bounds.containsPoint e.position = false)
    ∧ (∀ (i : Interactivity) (b : MouseButton) (l : Nat),
        (i.onMouseDown b l).mouse_down = i.mouse_down ++ [.inside b l]
        ∧ (i.onMouseDownOut b l).mouse_down = i.mouse_down ++ [.outside b l]
        ∧ (i.onMouseUp b l).mouse_up = i.mouse_up ++ [.inside b l]
        ∧ (i.onMouseUpOut b l).mouse_up = i.mouse_up ++ [.outside b l]) := by
  refine ⟨?_, ?_, ?_, ?_, fun i b l => ⟨rfl, rfl, rfl, rfl⟩⟩ <;>
    intro b l e bounds phase <;>
    simp [MouseDownListener.fires, MouseUpListener.fires, Bool.and_eq_true,
      decide_eq_true_iff, Bool.not_eq_true', and_assoc]

/-- C5: after paint with a pending down `md`, the installed click-synthesis
up-listener holds `md` and the taken-out click listeners; a Bubble-phase
mouse-up inside the bounds fires every registered click listener exactly
once with the pair `(md, up)` and clears the pending register; an up
outside the bounds fires none and still clears the register.  After paint
with no pending down, no click-synthesis listener is installed (so no
click listener fires from raw down or up events) and the installed capture
listener stores an in-bounds Bubble-phase down in the register, leaving it
alone otherwise. -/
theorem c5_click_synthesis :
    (∀ (i : Interactivity) (bounds : Bounds) (md : MouseDownEvent),
        (i.paint bounds (some md)).2.clickUp = some (md, i.mouse_click)
        ∧ (∀ (p : Option MouseDownEvent) (up : MouseUpEvent),
            (bounds.containsPoint up.position = true →
              Installed.dispatchUp (i.paint bounds (some md)).2 p up DispatchPhase.Bubble
                = (i.mouse_click.map (fun l => (l, ⟨md, up⟩)), none))
            ∧ (bounds.containsPoint up.position = false →
              Installed.dispatchUp (i.paint bounds (some md)).2 p up DispatchPhase.Bubble
                = ([], none))))
    ∧ (∀ (i : Interactivity) (bounds : Bounds),
        (i.paint bounds none).2.clickUp = none
        ∧ (i.paint bounds none).2.downCapture = true
        ∧ (∀ (p : Option MouseDownEvent) (up : MouseUpEvent) (phase : DispatchPhase),
            Installed.dispatchUp (i.paint bounds none).2 p up phase = ([], p))
        ∧ (∀ (p : Option MouseDownEvent) (e : MouseDownEvent),
            (bounds.containsPoint e.position = true →
              Installed.dispatchDown (i.paint bounds none).2 p e DispatchPhase.Bubble
                = some e)
            ∧ (bounds.containsPoint e.position = false → ∀ phase,
              Installed.dispatchDown (i.paint bounds none).2 p e phase = p)
            ∧ Installed.dispatchDown (i.paint bounds none).2 p e DispatchPhase.Capture
                = p)) := by
  constructor
  · intro i bounds md
    refine ⟨rfl, fun p up => ⟨fun hin => ?_, fun hout => ?_⟩⟩
    · simp [Interactivity.paint, Installed.dispatchUp, hin]
    · simp [Interactivity.paint, Installed.dispatchUp, hout]
  · intro i bounds
    refine ⟨rfl, rfl, fun p up phase => rfl, fun p e => ⟨fun hin => ?_, fun hout phase => ?_, ?_⟩⟩
    · simp [Interactivity.paint, Installed.dispatchDown, hin]
    · simp [Interactivity.paint, Installed.dispatchDown, hout]
    · simp [Interactivity.paint, Installed.dispatchDown]

/-- C10: `paint` moves the mouse-down, mouse-up, mouse-click, mouse-move
and scroll-wheel listener lists out into the per-paint registrations —
leaving all five empty on the `Interactivity` — and does not touch the key
listener list. -/
theorem c10_paint_drains (i : Interactivity) (bounds : Bounds)
    (pending : Option MouseDownEvent) :
    ((i.paint bounds pending).1.mouse_down = []
      ∧ (i.paint bounds pending).1.mouse_up = []
      ∧ (i.paint bounds pending).1.mouse_click = []
      ∧ (i.paint bounds pending).1.mouse_move = []
      ∧ (i.paint bounds pending).1.scroll_wheel = [])
    ∧ (i.paint bounds pending).1.key = i.key
    ∧ ((i.paint bounds pending).2.mouse_down = i.mouse_down
      ∧ (i.paint bounds pending).2.mouse_up = i.mouse_up
      ∧ (i.paint bounds pending).2.mouse_move = i.mouse_move
      ∧ (i.paint bounds pending).2.scroll_wheel = i.scroll_wheel) :=
  ⟨⟨rfl, rfl, rfl, rfl, rfl⟩, rfl, rfl, rfl, rfl, rfl⟩

/-- The element used by the C5 witness: two click listeners (7 and 8) and
one key listener. -/
def c5Elem : Interactivity := ⟨[], [], [7, 8], [], [], [(1, 2)]⟩

/-- The bounds used by the C5 witness. -/
def c5Bounds : Bounds := ⟨⟨0, 0⟩, ⟨10, 10⟩⟩

/-- Witness for `c5_click_synthesis`: a down at (1,1), an up at (2,2)
(inside) fires both click listeners once with that pair; an up at (20,2)
(outside) fires none; both clear the register; with no pending down, a
down at (1,1) is captured into the register. -/
theorem c5_click_synthesis_witness :
    ((c5Elem.paint c5Bounds (some ⟨MouseButton.Left, ⟨1, 1⟩, 1⟩)).2.clickUp
        = some (⟨MouseButton.Left, ⟨1, 1⟩, 1⟩, [7, 8])
      ∧ (c5Bounds.containsPoint (⟨2, 2⟩ : Point) = true
        ∧ Installed.dispatchUp (c5Elem.paint c5Bounds (some ⟨MouseButton.Left, ⟨1, 1⟩, 1⟩)).2
            (some ⟨MouseButton.Left, ⟨1, 1⟩, 1⟩) ⟨MouseButton.Left, ⟨2, 2⟩, 1⟩
            DispatchPhase.Bubble
          = ([(7, ⟨⟨MouseButton.Left, ⟨1, 1⟩, 1⟩, ⟨MouseButton.Left, ⟨2, 2⟩, 1⟩⟩),
              (8, ⟨⟨MouseButton.Left, ⟨1, 1⟩, 1⟩, ⟨MouseButton.Left, ⟨2, 2⟩, 1⟩⟩)], none))
      ∧ (c5Bounds.containsPoint (⟨20, 2⟩ : Point) = false
        ∧ Installed.dispatchUp (c5Elem.paint c5Bounds (some ⟨MouseButton.Left, ⟨1, 1⟩, 1⟩)).2
            (some ⟨MouseButton.Left, ⟨1, 1⟩, 1⟩) ⟨MouseButton.Left, ⟨20, 2⟩, 1⟩
            DispatchPhase.Bubble
          = ([], none)))
    ∧ ((c5Elem.paint c5Bounds none).2.clickUp = none
      ∧ Installed.dispatchUp (c5Elem.paint c5Bounds none).2 none
          ⟨MouseButton.Left, ⟨2, 2⟩, 1⟩ DispatchPhase.Bubble = ([], none)
      ∧ (c5Bounds.containsPoint (⟨1, 1⟩ : Point) = true
        ∧ Installed.dispatchDown (c5Elem.paint c5Bounds none).2 none
            ⟨MouseButton.Left, ⟨1, 1⟩, 1⟩ DispatchPhase.Bubble
          = some ⟨MouseButton.Left, ⟨1, 1⟩, 1⟩)) :=
  ⟨⟨(c5_click_synthesis.1 c5Elem c5Bounds ⟨MouseButton.Left, ⟨1, 1⟩, 1⟩).1,
    ⟨by decide,
     ((c5_click_synthesis.1 c5Elem c5Bounds ⟨MouseButton.Left, ⟨1, 1⟩, 1⟩).2
        (some ⟨MouseButton.Left, ⟨1, 1⟩, 1⟩) ⟨MouseButton.Left, ⟨2, 2⟩, 1⟩).1 (by decide)⟩,
    ⟨by decide,
     ((c5_click_synthesis.1 c5Elem c5Bounds ⟨MouseButton.Left, ⟨1, 1⟩, 1⟩).2
        (some ⟨MouseButton.Left, ⟨1, 1⟩, 1⟩) ⟨MouseButton.Left, ⟨20, 2⟩, 1⟩).2 (by decide)⟩⟩,
   ⟨(c5_click_synthesis.2 c5Elem c5Bounds).1,
    (c5_click_synthesis.2 c5Elem c5Bounds).2.2.1 none ⟨MouseButton.Left, ⟨2, 2⟩, 1⟩
      DispatchPhase.Bubble,
    ⟨by decide,
     ((c5_click_synthesis.2 c5Elem c5Bounds).2.2.2 none ⟨MouseButton.Left, ⟨1, 1⟩, 1⟩).1
       (by decide)⟩⟩⟩

end Gpui